import Mathlib

/-!
Verification of the GhostCrew coordination core against its specification.

This file gives a shallow embedding, in Lean 4, of the components of the
`ghostcrew` package that the checked properties concern:

* the agent state machine (`ghostcrew/agents/state.py`),
* the conversation memory manager (`ghostcrew/llm/memory.py`),
* the agent execution loop and its helpers (`ghostcrew/agents/base_agent.py`,
  `ghostcrew/tools/completion/__init__.py`),
* the worker pool's terminal-status classification
  (`ghostcrew/agents/crew/worker_pool.py`, `ghostcrew/agents/crew/models.py`),
* the shadow graph (`ghostcrew/knowledge/graph.py`).

Conventions used throughout the embedding:

* Python `str` is `String`, `int` counters are `Nat`, token budgets that can
  go negative inside an arithmetic expression are `Int`.
* Python `Optional[X]` is `Option X`; Python dictionaries whose concrete keys
  matter are association lists `List (String × String)`.
* Fallible Python calls (tool execution, LLM calls) are modelled with
  `Except String` / `Option`, an exception being the error branch.
* External collaborators (the tiktoken encoder, the `re` regex engine and the
  LLM backend) are abstracted as function parameters; everything written in
  the repository itself is translated directly.
-/

namespace GhostCrew

/-! ## Agent state machine (`ghostcrew/agents/state.py`) -/

/-- The `AgentState` enum of `agents/state.py`. -/
inductive AgentState
  | idle
  | thinking
  | executing
  | waitingInput
  | complete
  | error
deriving DecidableEq, Repr

/-- One entry of the transition log (`StateTransition`; the timestamp field is
not modelled, it never influences control flow). -/
structure StateTransition where
  fromState : AgentState
  toState : AgentState
  reason : Option String
deriving DecidableEq, Repr

/-- The `VALID_TRANSITIONS` table of `AgentStateManager`. -/
def validTransitions : AgentState → List AgentState
  | .idle => [.thinking, .error]
  | .thinking => [.executing, .waitingInput, .complete, .error]
  | .executing => [.thinking, .error]
  | .waitingInput => [.thinking, .complete, .error]
  | .complete => [.idle]
  | .error => [.idle]

/-- The mutable fields of `AgentStateManager` (the `metadata` dict is not
modelled; no transition logic reads it). -/
structure AgentStateManager where
  currentState : AgentState := .idle
  history : List StateTransition := []
deriving DecidableEq, Repr

/-- `AgentStateManager.can_transition_to`. -/
def AgentStateManager.canTransitionTo (m : AgentStateManager) (s : AgentState) : Bool :=
  (validTransitions m.currentState).contains s

/-- `AgentStateManager.transition_to`: returns the success flag together with
the updated manager; a rejected transition returns the manager unchanged. -/
def AgentStateManager.transitionTo (m : AgentStateManager) (s : AgentState)
    (reason : Option String) : Bool × AgentStateManager :=
  if m.canTransitionTo s then
    (true, { currentState := s,
             history := m.history ++ [⟨m.currentState, s, reason⟩] })
  else
    (false, m)

/-- `AgentStateManager.force_transition`: applies unconditionally and logs a
`FORCED`-prefixed reason. -/
def AgentStateManager.forceTransition (m : AgentStateManager) (s : AgentState)
    (reason : Option String) : AgentStateManager :=
  { currentState := s,
    history := m.history ++
      [⟨m.currentState, s,
        some (match reason with
              | some r => "FORCED: " ++ r
              | none => "FORCED")⟩] }

/-- C1: `transition_to(T)` succeeds iff `T` is in the allowed-next set of the
current state per the `VALID_TRANSITIONS` table; on success the current state
becomes `T`, and a rejected transition is a no-op (the manager, hence also the
current state, is returned unchanged) that reports failure.  The model is a
total function, mirroring that the Python method never raises. -/
theorem transitionTo_success_iff_allowed (m : AgentStateManager) (t : AgentState)
    (r : Option String) :
    ((m.transitionTo t r).1 = true ↔ t ∈ validTransitions m.currentState)
    ∧ (if (m.transitionTo t r).1 then (m.transitionTo t r).2.currentState = t
       else (m.transitionTo t r).2 = m) := by
  unfold AgentStateManager.transitionTo AgentStateManager.canTransitionTo
  by_cases h : (validTransitions m.currentState).contains t
  · simp only [h, if_true]
    constructor
    · simp only [true_iff]
      exact List.elem_iff.mp h
    · trivial
  · simp only [h, Bool.false_eq_true, if_false]
    constructor
    · simp only [false_iff]
      intro hmem
      exact h (List.elem_iff.mpr hmem)
    · trivial

/-! ## Agent messages and tools (`ghostcrew/agents/base_agent.py`) -/

/-- The `ToolCall` dataclass.  Argument values are modelled as strings (the
loop only threads them through to `Tool.execute`). -/
structure ToolCall where
  id : String
  name : String
  arguments : List (String × String) := []
deriving DecidableEq, Repr

/-- The `ToolResult` dataclass. -/
structure ToolResult where
  toolCallId : String
  toolName : String
  result : Option String := none
  error : Option String := none
  success : Bool := true
deriving DecidableEq, Repr

/-- The `AgentMessage` dataclass.  The Python `tool_calls`/`tool_results`
fields are `Optional[List[...]]` defaulting to `None`; since the code only
ever tests them for truthiness (where `None` and `[]` coincide) they are
modelled as plain lists with `[]` for `None`.  The `metadata` dict is only
ever used as a set of boolean flags (`task_complete`, `intermediate`,
`max_iterations_reached`), so it is modelled as a list of flag names. -/
structure AgentMessage where
  role : String
  content : String
  toolCalls : List ToolCall := []
  toolResults : List ToolResult := []
  metadata : List String := []
  usage : Option Nat := none
deriving DecidableEq, Repr

/-- A tool, as the agent loop sees it: a unique name and an `execute`
operation.  Execution that raises is the `Except.error` branch, carrying
`str(e)`; the runtime handle is omitted (it is threaded through opaquely). -/
structure Tool where
  name : String
  execute : List (String × String) → Except String String

/-- `TASK_COMPLETE_SIGNAL` from `ghostcrew/tools/completion/__init__.py`. -/
def taskCompleteSignal : String := "__TASK_COMPLETE__"

/-- `is_task_complete`: the result starts with the reserved signal
(`str.startswith`, expressed as a prefix test on the character list). -/
def isTaskComplete (result : String) : Bool :=
  taskCompleteSignal.data.isPrefixOf result.data

/-- `extract_completion_summary`. -/
def extractCompletionSummary (result : String) : String :=
  if isTaskComplete result then result.drop (taskCompleteSignal.length + 1)
  else result

/-- The `finish` tool's return value
(`ghostcrew/tools/completion/__init__.py`): the signal, a colon, and the
summary argument (defaulting to `"Task completed."`). -/
def finishToolResult (arguments : List (String × String)) : String :=
  taskCompleteSignal ++ ":" ++ ((arguments.lookup "summary").getD "Task completed.")

/-- The registered `finish` tool. -/
def finishTool : Tool :=
  { name := "finish", execute := fun args => .ok (finishToolResult args) }

/-! ## Cancellation cleanup (`BaseAgent.cleanup_after_cancel`) -/

/-- The fields of `BaseAgent` that `cleanup_after_cancel` touches. -/
structure BaseAgentState where
  stateManager : AgentStateManager
  conversationHistory : List AgentMessage
deriving DecidableEq, Repr

/-- The `while` loop of `cleanup_after_cancel`, expressed on the reversed
history (the Python loop repeatedly inspects and pops the last element):
an assistant message carrying tool calls is popped, a message whose role is
the literal `"tool"` is popped, a user message is popped and the loop stops,
anything else stops the loop. -/
def cleanupHistoryRev : List AgentMessage → List AgentMessage
  | [] => []
  | msg :: rest =>
    if msg.role = "assistant" ∧ msg.toolCalls ≠ [] then cleanupHistoryRev rest
    else if msg.role = "tool" then cleanupHistoryRev rest
    else if msg.role = "user" then rest
    else msg :: rest

/-- `BaseAgent.cleanup_after_cancel`: trim the history as above, then call
the *validated* `transition_to(AgentState.IDLE)` (discarding its success
flag, as the Python code does). -/
def cleanupAfterCancel (a : BaseAgentState) : BaseAgentState :=
  { conversationHistory := (cleanupHistoryRev a.conversationHistory.reverse).reverse,
    stateManager := (a.stateManager.transitionTo .idle none).2 }

/-- A user message, an assistant message carrying a pending tool call, and the
tool-result message the loop appended for it — the trailing incomplete turn of
a conversation cancelled right after a tool round. -/
def cancelledTurn : List AgentMessage :=
  [ { role := "user", content := "scan the target" },
    { role := "assistant", content := "",
      toolCalls := [{ id := "call_1", name := "terminal" }] },
    { role := "tool_result", content := "",
      toolResults := [{ toolCallId := "call_1", toolName := "terminal",
                        result := some "...", success := true }] } ]

/-- C3: the claim fails on the code.  Run `cleanup_after_cancel` on an agent
cancelled in state `thinking` whose history ends with the incomplete turn
`[user, assistant(tool_calls), tool_result]`.  The trailing tool-result
message has role `"tool_result"`, which matches none of the removal branches
(the code tests for the literal role `"tool"`), so nothing at all is popped;
and `transition_to(idle)` is rejected from `thinking` (idle is not in
thinking's allowed-next set), so the state remains `thinking` instead of
becoming `idle`. -/
theorem cleanupAfterCancel_leaves_turn_and_state :
    (cleanupAfterCancel
        { stateManager := { currentState := .thinking, history := [] },
          conversationHistory := cancelledTurn }).conversationHistory
      = cancelledTurn
    ∧ (cleanupAfterCancel
        { stateManager := { currentState := .thinking, history := [] },
          conversationHistory := cancelledTurn }).stateManager.currentState
      = .thinking := by
  constructor <;> rfl

/-! ## Tool execution (`BaseAgent._execute_tools`, `BaseAgent._find_tool`) -/

/-- `BaseAgent._find_tool`: first tool whose name matches, else `None`. -/
def findTool (tools : List Tool) (name : String) : Option Tool :=
  tools.find? (fun t => t.name == name)

/-- The body of `_execute_tools` for one structured call: a known tool is
executed, a raised exception becomes a failed `ToolResult`, and an unknown
name yields a failed `ToolResult` whose error names the tool. -/
def executeToolCall (tools : List Tool) (call : ToolCall) : ToolResult :=
  match findTool tools call.name with
  | some tool =>
    match tool.execute call.arguments with
    | .ok r =>
      { toolCallId := call.id, toolName := call.name, result := some r,
        success := true }
    | .error e =>
      { toolCallId := call.id, toolName := call.name, error := some e,
        success := false }
  | none =>
    { toolCallId := call.id, toolName := call.name,
      error := some ("Tool \x27" ++ call.name ++ "\x27 not found"),
      success := false }

/-- `BaseAgent._execute_tools`: the `for` loop over the batch, which never
aborts early (calls are modelled already structured, so the id/name/argument
extraction and the `continue` branch for malformed raw calls are implicit). -/
def executeTools (tools : List Tool) : List ToolCall → List ToolResult
  | [] => []
  | c :: cs => executeToolCall tools c :: executeTools tools cs

/-! ## Message formatting (`BaseAgent._format_messages_for_llm`) -/

/-- One dict of the list `_format_messages_for_llm` returns (the shape
`AgentMessage.to_llm_format` / the tool-response dict produce). -/
structure FormattedMessage where
  role : String
  content : String
  toolCallId : Option String := none
  toolCalls : List ToolCall := []
deriving DecidableEq, Repr

/-- `AgentMessage.to_llm_format`. -/
def toLlmFormat (m : AgentMessage) : FormattedMessage :=
  { role := m.role, content := m.content, toolCalls := m.toolCalls }

/-- The tool-response dict built for one `ToolResult`: role `"tool"`, the
result text on success and `"Error: {error}"` on failure (a `None` error
renders as `"None"`, as the f-string does), and the originating call id. -/
def formatToolResult (r : ToolResult) : FormattedMessage :=
  { role := "tool",
    content := if r.success then r.result.getD ""
               else "Error: " ++ r.error.getD "None",
    toolCallId := some r.toolCallId }

/-- `BaseAgent._format_messages_for_llm`: a `tool_result` message with a
non-empty result list expands into one tool-response dict per result; every
other message is passed through `to_llm_format`. -/
def formatMessagesForLLM : List AgentMessage → List FormattedMessage
  | [] => []
  | m :: rest =>
    if m.role = "tool_result" ∧ m.toolResults ≠ [] then
      m.toolResults.map formatToolResult ++ formatMessagesForLLM rest
    else
      toLlmFormat m :: formatMessagesForLLM rest

/-! ## The agent execution loop (`BaseAgent._run_loop`) -/

/-- One response of `llm.generate`: optional text and a (possibly empty) list
of tool calls, already in structured form, plus the reported total token
usage. -/
structure LLMResponse where
  content : Option String := none
  toolCalls : List ToolCall := []
  usage : Option Nat := none
deriving DecidableEq, Repr

/-- The loop-visible state of one agent: the state machine, the conversation
history, and the stream of messages yielded so far (the `yield`s of the
Python generator, which the worker pool consumes). -/
structure LoopState where
  stateManager : AgentStateManager := {}
  history : List AgentMessage := []
  emitted : List AgentMessage := []
deriving DecidableEq, Repr

/-- The test `result.success and result.result and is_task_complete(result.result)`
of the completion scan (a `None` or empty result string is falsy). -/
def signalsComplete (r : ToolResult) : Bool :=
  r.success && (match r.result with
                | some s => s != "" && isTaskComplete s
                | none => false)

/-- Outcome of one loop iteration: continue looping, or terminate because a
tool result carried the completion signal (the executed batch is recorded). -/
inductive StepOutcome
  | goOn (st : LoopState)
  | completed (st : LoopState) (results : List ToolResult)
deriving DecidableEq, Repr

/-- One iteration of `_run_loop` on a generated response.

With tool calls: yield the early assistant message, transition to
`executing`, execute the batch, append the assistant and tool-result messages
to history, then scan the results; on the first completion signal yield the
summary message, attempt `transition_to(COMPLETE)` and terminate, else yield
the results message, transition back to `thinking` and continue.

Without tool calls: a non-empty text is appended and yielded as an
intermediate "thinking aloud" message and the loop continues; the loop is
never terminated by this branch. -/
def runLoopStep (tools : List Tool) (resp : LLMResponse) (st : LoopState) :
    StepOutcome :=
  if resp.toolCalls ≠ [] then
    let calls := resp.toolCalls
    let earlyMsg : AgentMessage :=
      { role := "assistant", content := resp.content.getD "",
        toolCalls := calls, usage := resp.usage }
    let st1 : LoopState :=
      { st with emitted := st.emitted ++ [earlyMsg],
                stateManager := (st.stateManager.transitionTo .executing none).2 }
    let results := executeTools tools calls
    let assistantMsg : AgentMessage :=
      { role := "assistant", content := resp.content.getD "",
        toolCalls := calls, usage := resp.usage }
    let toolResultMsg : AgentMessage :=
      { role := "tool_result", content := "", toolResults := results }
    let st2 : LoopState :=
      { st1 with history := st1.history ++ [assistantMsg, toolResultMsg] }
    match results.find? signalsComplete with
    | some r =>
      let displayMsg : AgentMessage :=
        { role := "assistant",
          content := extractCompletionSummary (r.result.getD ""),
          toolCalls := calls, toolResults := results, usage := resp.usage,
          metadata := ["task_complete"] }
      .completed
        { st2 with emitted := st2.emitted ++ [displayMsg],
                   stateManager := (st2.stateManager.transitionTo .complete none).2 }
        results
    | none =>
      let displayMsg : AgentMessage :=
        { role := "assistant", content := resp.content.getD "",
          toolCalls := calls, toolResults := results, usage := resp.usage }
      .goOn
        { st2 with emitted := st2.emitted ++ [displayMsg],
                   stateManager := (st2.stateManager.transitionTo .thinking none).2 }
  else
    if resp.content.getD "" ≠ "" then
      let thinkingMsg : AgentMessage :=
        { role := "assistant", content := resp.content.getD "",
          usage := resp.usage, metadata := ["intermediate"] }
      .goOn { st with history := st.history ++ [thinkingMsg],
                      emitted := st.emitted ++ [thinkingMsg] }
    else .goOn st

/-- Why the loop ended: a completion signal in a tool-result batch, or the
iteration cap. -/
inductive LoopExit
  | completedSignal (results : List ToolResult)
  | maxIterations
deriving DecidableEq, Repr

/-- Final state and exit reason of `_run_loop`. -/
structure LoopResult where
  state : LoopState
  exit : LoopExit
deriving DecidableEq, Repr

/-- The iteration-cap warning message appended when the `while` loop runs
out. -/
def maxIterationsMessage (maxIterations : Nat) : AgentMessage :=
  { role := "assistant",
    content := "[!] Reached maximum iterations (" ++ toString maxIterations
      ++ "). Stopping to prevent infinite loop. You can continue the conversation if needed.",
    metadata := ["max_iterations_reached"] }

/-- `_run_loop`'s `while iteration < max_iterations` loop: `fuel` is the
number of iterations still allowed, `gen` maps the iteration index to the
response `llm.generate` produces there.  On cap exhaustion the warning
message is appended and yielded and `transition_to(COMPLETE)` is applied. -/
def runLoop (tools : List Tool) (maxIterations : Nat) (gen : Nat → LLMResponse)
    (iteration : Nat) : Nat → LoopState → LoopResult
  | 0, st =>
    { state :=
        { st with history := st.history ++ [maxIterationsMessage maxIterations],
                  emitted := st.emitted ++ [maxIterationsMessage maxIterations],
                  stateManager := (st.stateManager.transitionTo .complete none).2 },
      exit := .maxIterations }
  | fuel + 1, st =>
    match runLoopStep tools (gen iteration) st with
    | .completed st2 results => { state := st2, exit := .completedSignal results }
    | .goOn st2 => runLoop tools maxIterations gen (iteration + 1) fuel st2

/-! ### Loop lemmas -/

/-- The `for` loop of `_execute_tools` produces exactly one result per call,
each computed independently of the others. -/
theorem executeTools_eq_map (tools : List Tool) (calls : List ToolCall) :
    executeTools tools calls = calls.map (executeToolCall tools) := by
  induction calls with
  | nil => rfl
  | cons c cs ih => simp [executeTools, ih]

/-- Unfolding equation of `formatMessagesForLLM` for a message that is not a
non-empty tool-result message. -/
theorem formatMessagesForLLM_cons_other (m : AgentMessage) (rest : List AgentMessage)
    (h : ¬(m.role = "tool_result" ∧ m.toolResults ≠ [])) :
    formatMessagesForLLM (m :: rest) = toLlmFormat m :: formatMessagesForLLM rest := by
  simp only [formatMessagesForLLM]
  rw [if_neg h]

/-- Unfolding equation of `formatMessagesForLLM` for a non-empty tool-result
message. -/
theorem formatMessagesForLLM_cons_toolResult (m : AgentMessage)
    (rest : List AgentMessage) (h : m.role = "tool_result" ∧ m.toolResults ≠ []) :
    formatMessagesForLLM (m :: rest)
      = m.toolResults.map formatToolResult ++ formatMessagesForLLM rest := by
  simp only [formatMessagesForLLM]
  rw [if_pos h]

/-- `_format_messages_for_llm` processes messages independently, so it
distributes over list append. -/
theorem formatMessagesForLLM_append (l1 l2 : List AgentMessage) :
    formatMessagesForLLM (l1 ++ l2)
      = formatMessagesForLLM l1 ++ formatMessagesForLLM l2 := by
  induction l1 with
  | nil => rfl
  | cons m rest ih =>
    simp only [List.cons_append, formatMessagesForLLM]
    split
    · rw [List.append_eq, ih, List.append_assoc]
    · rw [List.append_eq, ih, List.cons_append]

/-- Characterization of the tool-call branch of `runLoopStep` when no result
signals completion: the loop continues, with the assistant and tool-result
messages appended to history. -/
theorem runLoopStep_tools_goOn (tools : List Tool) (resp : LLMResponse)
    (st : LoopState) (hne : resp.toolCalls ≠ [])
    (hf : (executeTools tools resp.toolCalls).find? signalsComplete = none) :
    runLoopStep tools resp st = .goOn
      { stateManager :=
          (((st.stateManager.transitionTo .executing none).2).transitionTo .thinking none).2,
        history := st.history ++
          [{ role := "assistant", content := resp.content.getD "",
             toolCalls := resp.toolCalls, usage := resp.usage },
           { role := "tool_result", content := "",
             toolResults := executeTools tools resp.toolCalls }],
        emitted := st.emitted ++
          [{ role := "assistant", content := resp.content.getD "",
             toolCalls := resp.toolCalls, usage := resp.usage }] ++
          [{ role := "assistant", content := resp.content.getD "",
             toolCalls := resp.toolCalls,
             toolResults := executeTools tools resp.toolCalls,
             usage := resp.usage }] } := by
  simp only [runLoopStep, if_pos hne, hf]

/-- Characterization of the tool-call branch of `runLoopStep` when the first
signalling result is found: the loop terminates, recording the batch. -/
theorem runLoopStep_tools_completed (tools : List Tool) (resp : LLMResponse)
    (st : LoopState) (r : ToolResult) (hne : resp.toolCalls ≠ [])
    (hf : (executeTools tools resp.toolCalls).find? signalsComplete = some r) :
    runLoopStep tools resp st = .completed
      { stateManager :=
          (((st.stateManager.transitionTo .executing none).2).transitionTo .complete none).2,
        history := st.history ++
          [{ role := "assistant", content := resp.content.getD "",
             toolCalls := resp.toolCalls, usage := resp.usage },
           { role := "tool_result", content := "",
             toolResults := executeTools tools resp.toolCalls }],
        emitted := st.emitted ++
          [{ role := "assistant", content := resp.content.getD "",
             toolCalls := resp.toolCalls, usage := resp.usage }] ++
          [{ role := "assistant",
             content := extractCompletionSummary (r.result.getD ""),
             toolCalls := resp.toolCalls,
             toolResults := executeTools tools resp.toolCalls,
             metadata := ["task_complete"], usage := resp.usage }] }
      (executeTools tools resp.toolCalls) := by
  simp only [runLoopStep, if_pos hne, hf]

/-- A loop iteration terminates only when the executed batch contains a tool
result satisfying the completion-signal test. -/
theorem step_completed_has_signal (tools : List Tool) (resp : LLMResponse)
    (st st2 : LoopState) (rs : List ToolResult) :
    runLoopStep tools resp st = .completed st2 rs →
    ∃ r ∈ rs, signalsComplete r = true := by
  by_cases hne : resp.toolCalls ≠ []
  · cases hf : (executeTools tools resp.toolCalls).find? signalsComplete with
    | none =>
      intro h
      rw [runLoopStep_tools_goOn tools resp st hne hf] at h
      cases h
    | some r =>
      intro h
      rw [runLoopStep_tools_completed tools resp st r hne hf] at h
      injection h with h1 h2
      subst h2
      exact ⟨r, List.mem_of_find?_eq_some hf, List.find?_some hf⟩
  · intro h
    by_cases hc : resp.content.getD "" ≠ ""
    · simp only [runLoopStep, if_neg hne, if_pos hc] at h
      cases h
    · simp only [runLoopStep, if_neg hne, if_neg hc] at h
      cases h

/-- C5: a model response carrying text but no tool calls never terminates the
loop.  Conjuncts: (1) on an empty tool-call list the step always continues;
(2) a non-empty text is appended to history and emitted, unchanged otherwise;
(3) whenever `_run_loop` exits with the completion exit, the final executed
batch contained a successful tool result carrying the reserved signal; (4)
when the iteration budget is exhausted the loop exits with the
max-iterations exit. -/
theorem textOnly_never_terminates_loop :
    (∀ (tools : List Tool) (resp : LLMResponse) (st : LoopState),
      resp.toolCalls = [] → ∃ st2, runLoopStep tools resp st = .goOn st2)
    ∧ (∀ (tools : List Tool) (resp : LLMResponse) (st : LoopState) (c : String),
        resp.toolCalls = [] → resp.content = some c → c ≠ "" →
        runLoopStep tools resp st =
          .goOn { st with
                    history := st.history ++
                      [{ role := "assistant", content := c, usage := resp.usage,
                         metadata := ["intermediate"] }],
                    emitted := st.emitted ++
                      [{ role := "assistant", content := c, usage := resp.usage,
                         metadata := ["intermediate"] }] })
    ∧ (∀ (tools : List Tool) (maxIterations : Nat) (gen : Nat → LLMResponse)
         (iteration fuel : Nat) (st : LoopState) (rs : List ToolResult),
        (runLoop tools maxIterations gen iteration fuel st).exit = .completedSignal rs →
        ∃ r ∈ rs, signalsComplete r = true)
    ∧ (∀ (tools : List Tool) (maxIterations : Nat) (gen : Nat → LLMResponse)
         (iteration : Nat) (st : LoopState),
        (runLoop tools maxIterations gen iteration 0 st).exit = .maxIterations) := by
  refine ⟨?_, ?_, ?_, ?_⟩
  · intro tools resp st hcalls
    have hne : ¬ resp.toolCalls ≠ [] := by simp [hcalls]
    by_cases hc : resp.content.getD "" ≠ ""
    · refine ⟨{ st with
          history := st.history ++
            [{ role := "assistant", content := resp.content.getD "",
               usage := resp.usage, metadata := ["intermediate"] }],
          emitted := st.emitted ++
            [{ role := "assistant", content := resp.content.getD "",
               usage := resp.usage, metadata := ["intermediate"] }] }, ?_⟩
      simp only [runLoopStep, if_neg hne, if_pos hc]
    · refine ⟨st, ?_⟩
      simp only [runLoopStep, if_neg hne, if_neg hc]
  · intro tools resp st c hcalls hcont hc
    have hne : ¬ resp.toolCalls ≠ [] := by simp [hcalls]
    simp only [runLoopStep, if_neg hne, hcont, Option.getD_some]
    rw [if_pos hc]
  · intro tools maxIterations gen iteration fuel
    induction fuel generalizing iteration with
    | zero => intro st rs h; cases h
    | succ n ih =>
      intro st rs h
      unfold runLoop at h
      cases hstep : runLoopStep tools (gen iteration) st with
      | completed st2 rs2 =>
        rw [hstep] at h
        cases h
        exact step_completed_has_signal tools (gen iteration) st st2 rs hstep
      | goOn st2 =>
        rw [hstep] at h
        exact ih (iteration + 1) st2 rs h
  · intro tools maxIterations gen iteration st
    rfl

/-- C5 witness: concrete closed instances of every conjunct.  A text-only
response continues the loop with the message recorded; a batch containing the
`finish` tool ends the run with a signalling result; zero remaining
iterations exit with the cap. -/
theorem textOnly_never_terminates_loop_witness :
    (∃ st2, runLoopStep [] { content := some "thinking aloud" } {} = .goOn st2)
    ∧ (runLoopStep [] { content := some "thinking aloud" } {} =
        .goOn { history := [{ role := "assistant", content := "thinking aloud",
                              metadata := ["intermediate"] }],
                emitted := [{ role := "assistant", content := "thinking aloud",
                              metadata := ["intermediate"] }] })
    ∧ (∃ r ∈ executeTools [finishTool]
          [{ id := "1", name := "finish", arguments := [("summary", "done")] }],
        signalsComplete r = true)
    ∧ (runLoop [] 7 (fun _ => { content := some "ok" }) 0 0 {}).exit = .maxIterations := by
  refine ⟨?_, ?_, ?_, ?_⟩
  · exact textOnly_never_terminates_loop.1 []
      { content := some "thinking aloud" } {} rfl
  · exact textOnly_never_terminates_loop.2.1 []
      { content := some "thinking aloud" } {} "thinking aloud" rfl rfl (by decide)
  · exact textOnly_never_terminates_loop.2.2.1 [finishTool] 7
      (fun _ => { toolCalls :=
        [{ id := "1", name := "finish", arguments := [("summary", "done")] }] })
      0 3 {}
      (executeTools [finishTool]
        [{ id := "1", name := "finish", arguments := [("summary", "done")] }])
      (by decide)
  · exact textOnly_never_terminates_loop.2.2.2 [] 7 (fun _ => { content := some "ok" }) 0 {}

/-- C6: a call naming a tool absent from the agent's tool list yields a
failed `ToolResult` whose error names the tool; the batch is still executed
call by call (one result per call, each independent); and when no result of
the batch carries the completion signal the loop continues, with the failed
result formatted as a tool-role error message visible to the model among the
next turn's formatted messages. -/
theorem unknown_tool_fails_without_aborting (tools : List Tool)
    (resp : LLMResponse) (st : LoopState) (c : ToolCall)
    (hmem : c ∈ resp.toolCalls) (hfind : findTool tools c.name = none) :
    executeTools tools resp.toolCalls = resp.toolCalls.map (executeToolCall tools)
    ∧ executeToolCall tools c =
        { toolCallId := c.id, toolName := c.name,
          error := some ("Tool \x27" ++ c.name ++ "\x27 not found"),
          success := false }
    ∧ (formatToolResult (executeToolCall tools c)).content
        = "Error: " ++ ("Tool \x27" ++ c.name ++ "\x27 not found")
    ∧ ((∀ r ∈ executeTools tools resp.toolCalls, signalsComplete r = false) →
        ∃ st2, runLoopStep tools resp st = .goOn st2
          ∧ formatToolResult (executeToolCall tools c)
              ∈ formatMessagesForLLM st2.history) := by
  have hcall : executeToolCall tools c =
      { toolCallId := c.id, toolName := c.name,
        error := some ("Tool \x27" ++ c.name ++ "\x27 not found"),
        success := false } := by
    unfold executeToolCall
    rw [hfind]
  refine ⟨executeTools_eq_map tools resp.toolCalls, hcall, by rw [hcall]; rfl, ?_⟩
  intro hnosig
  have hne : resp.toolCalls ≠ [] := by
    intro h
    rw [h] at hmem
    cases hmem
  have hfnone : (executeTools tools resp.toolCalls).find? signalsComplete = none := by
    apply List.find?_eq_none.mpr
    intro r hr
    simp [hnosig r hr]
  refine ⟨_, runLoopStep_tools_goOn tools resp st hne hfnone, ?_⟩
  have hres : executeToolCall tools c ∈ executeTools tools resp.toolCalls := by
    rw [executeTools_eq_map]
    exact List.mem_map_of_mem (executeToolCall tools) hmem
  have hrne : executeTools tools resp.toolCalls ≠ [] := by
    intro h
    rw [h] at hres
    cases hres
  rw [formatMessagesForLLM_append]
  apply List.mem_append_right
  rw [formatMessagesForLLM_cons_other _ _ (by simp),
      formatMessagesForLLM_cons_toolResult _ _ ⟨rfl, hrne⟩]
  exact List.mem_cons_of_mem _
    (List.mem_append_left _ (List.mem_map_of_mem formatToolResult hres))

/-- A concrete call to a tool (`nmap`) that is not registered. -/
def nmapCall : ToolCall := { id := "call_1", name := "nmap" }

/-- C6 witness: an agent with no tools asked to run `nmap`: the call fails
with an error naming `nmap`, the loop continues, and the formatted error
message is among the messages the model sees next turn. -/
theorem unknown_tool_fails_without_aborting_witness :
    executeTools [] [nmapCall] = [nmapCall].map (executeToolCall [])
    ∧ executeToolCall [] nmapCall =
        { toolCallId := "call_1", toolName := "nmap",
          error := some ("Tool \x27" ++ "nmap" ++ "\x27 not found"),
          success := false }
    ∧ (formatToolResult (executeToolCall [] nmapCall)).content
        = "Error: " ++ ("Tool \x27" ++ "nmap" ++ "\x27 not found")
    ∧ ((∀ r ∈ executeTools [] [nmapCall], signalsComplete r = false) →
        ∃ st2, runLoopStep [] { toolCalls := [nmapCall] } {} = .goOn st2
          ∧ formatToolResult (executeToolCall [] nmapCall)
              ∈ formatMessagesForLLM st2.history) :=
  unknown_tool_fails_without_aborting [] { toolCalls := [nmapCall] } {}
    nmapCall (List.mem_singleton.mpr rfl) rfl

/-! ## Worker pool terminal status
(`ghostcrew/agents/crew/models.py`, `ghostcrew/agents/crew/worker_pool.py`) -/

/-- The `AgentStatus` enum of `agents/crew/models.py`.  Its members are
exactly `PENDING`, `RUNNING`, `COMPLETE`, `ERROR` and `CANCELLED`. -/
inductive AgentStatus
  | pending
  | running
  | complete
  | error
  | cancelled
deriving DecidableEq, Repr

/-- Attribute access on the `AgentStatus` enum class: `some` for each defined
member, `none` (an `AttributeError`) for any other name. -/
def AgentStatus.fromAttr : String → Option AgentStatus
  | "PENDING" => some .pending
  | "RUNNING" => some .running
  | "COMPLETE" => some .complete
  | "ERROR" => some .error
  | "CANCELLED" => some .cancelled
  | _ => none

/-- Terminal status and recorded error of a worker. -/
structure WorkerOutcome where
  status : AgentStatus
  error : Option String := none
deriving DecidableEq, Repr

/-- The tail of `WorkerPool._run_worker` for a worker whose agent loop
finished without exception or cancellation: when the loop hit the iteration
cap the code executes `worker.status = AgentStatus.WARNING`.  That attribute
lookup is `AgentStatus.fromAttr "WARNING"`; when it fails, the resulting
`AttributeError` (whose `str` is just the attribute name) is caught by the
surrounding `except Exception` clause, which records `worker.error = str(e)`
and `worker.status = AgentStatus.ERROR`.  Otherwise the worker is marked
complete. -/
def classifyWorkerExit (hitMaxIterations : Bool) : WorkerOutcome :=
  if hitMaxIterations then
    match AgentStatus.fromAttr "WARNING" with
    | some s => { status := s }
    | none => { status := .error, error := some "WARNING" }
  else { status := .complete }

/-- The `hit_max_iterations` flag of `_run_worker`: set when any yielded
response carries the `max_iterations_reached` metadata flag. -/
def hitMaxIterationsFlag (emitted : List AgentMessage) : Bool :=
  emitted.any (fun m => m.metadata.contains "max_iterations_reached")

/-- Terminal status the pool records for a worker whose agent loop ran to
its natural end (neither cancelled nor failed by an exception from the loop
itself). -/
def runWorkerStatus (tools : List Tool) (maxIterations : Nat)
    (gen : Nat → LLMResponse) (st : LoopState) : WorkerOutcome :=
  classifyWorkerExit
    (hitMaxIterationsFlag (runLoop tools maxIterations gen 0 maxIterations st).state.emitted)

/-- A loop run that exits via the iteration cap has yielded a message flagged
`max_iterations_reached`. -/
theorem runLoop_maxIterations_flag (tools : List Tool) (maxIterations : Nat)
    (gen : Nat → LLMResponse) (iteration fuel : Nat) (st : LoopState) :
    (runLoop tools maxIterations gen iteration fuel st).exit = .maxIterations →
    hitMaxIterationsFlag (runLoop tools maxIterations gen iteration fuel st).state.emitted
      = true := by
  induction fuel generalizing iteration st with
  | zero =>
    intro _
    simp only [runLoop, hitMaxIterationsFlag, maxIterationsMessage]
    rw [List.any_append]
    simp [List.any_cons]
  | succ n ih =>
    intro h
    unfold runLoop at h ⊢
    cases hstep : runLoopStep tools (gen iteration) st with
    | completed st2 rs =>
      simp only [hstep] at h
      cases h
    | goOn st2 =>
      simp only [hstep] at h ⊢
      exact ih (iteration + 1) st2 h

/-- Whenever the agent loop of a worker exits via the iteration cap, the
pool's terminal classification records status `error` with the
`AttributeError` text, because the intended `WARNING` member is missing from
the enum. -/
theorem runWorkerStatus_error_on_cap (tools : List Tool) (maxIterations : Nat)
    (gen : Nat → LLMResponse) (st : LoopState)
    (h : (runLoop tools maxIterations gen 0 maxIterations st).exit = .maxIterations) :
    runWorkerStatus tools maxIterations gen st
      = { status := .error, error := some "WARNING" } := by
  unfold runWorkerStatus
  rw [runLoop_maxIterations_flag tools maxIterations gen 0 maxIterations st h]
  rfl

/-- C2: the claim is right and the code is wrong.  The `AgentStatus` enum has
no `WARNING` member (`fromAttr "WARNING" = none`), so for a worker whose
agent loop exhausts the iteration cap — here a concrete worker whose model
responses are text-only, so that its two allowed iterations run out — the
assignment `worker.status = AgentStatus.WARNING` raises `AttributeError`,
the generic exception handler runs, and the worker's terminal status is
`error`, not the distinct `warning` outcome the specification describes. -/
theorem iteration_cap_worker_status_is_error :
    AgentStatus.fromAttr "WARNING" = none
    ∧ runWorkerStatus [] 2 (fun _ => { content := some "scanning" }) {}
        = { status := .error, error := some "WARNING" }
    ∧ runWorkerStatus [] 2 (fun _ => { content := some "scanning" }) {}
        ≠ { status := .complete, error := none } :=
  ⟨rfl,
   runWorkerStatus_error_on_cap [] 2 (fun _ => { content := some "scanning" }) {}
     (by decide),
   by decide⟩

/-! ## Conversation memory (`ghostcrew/llm/memory.py`)

The tokenizer is external (tiktoken when importable, else a word-count
approximation); both are abstracted as a parameter `tok : String → Nat`
applied to a message's content, mirroring `_count_tokens`.  The two
float-derived quantities `int(max_tokens * reserve_ratio)` and
`int(token_budget * summarize_threshold)` are carried as the `Nat` fields
`tokenBudget` and `thresholdTokens`. -/

/-- One message dict as the memory manager sees it. -/
structure LlmMessage where
  role : String
  content : String
  toolCallId : Option String := none
deriving DecidableEq, Repr

/-- `_count_tokens` with the encoder/approximation abstracted as `tok`. -/
def countTokens (tok : String → Nat) (msg : LlmMessage) : Nat :=
  tok msg.content

/-- `get_total_tokens`. -/
def getTotalTokens (tok : String → Nat) (messages : List LlmMessage) : Nat :=
  (messages.map (countTokens tok)).sum

/-- The `for msg in reversed(messages)` loop of `_truncate_to_fit`: walk the
history from newest to oldest, prepending each message that still fits and
stopping at the first that does not. -/
def truncateLoop (tok : String → Nat) (budget : Int) :
    List LlmMessage → Nat → List LlmMessage → List LlmMessage
  | [], _, result => result
  | msg :: rest, total, result =>
    if (total + countTokens tok msg : Int) > budget then result
    else truncateLoop tok budget rest (total + countTokens tok msg) (msg :: result)

/-- `ConversationMemory._truncate_to_fit`. -/
def truncateToFit (tok : String → Nat) (messages : List LlmMessage)
    (budget : Int) : List LlmMessage :=
  truncateLoop tok budget messages.reverse 0 []

/-- The synthetic system message carrying a cached or fresh summary. -/
def summaryMessage (s : String) : LlmMessage :=
  { role := "system", content := "Previous conversation summary:\n" ++ s }

/-- The state and configuration of `ConversationMemory`.  `tokenBudget`
stands for `int(max_tokens * reserve_ratio)` and `thresholdTokens` for
`int(token_budget * summarize_threshold)`. -/
structure ConversationMemory where
  tokenBudget : Nat
  recentToKeep : Nat := 10
  thresholdTokens : Nat
  cachedSummary : Option String := none
  summarizedCount : Nat := 0
deriving DecidableEq, Repr

/-- `ConversationMemory.get_messages` (sync, no model call).  The Python
truthiness test `if self._cached_summary` is false for both `None` and the
empty string. -/
def ConversationMemory.getMessages (m : ConversationMemory)
    (tok : String → Nat) (messages : List LlmMessage) : List LlmMessage :=
  if messages.isEmpty then []
  else
    match m.cachedSummary with
    | some s =>
      if s ≠ "" ∧ m.summarizedCount < messages.length then
        summaryMessage s ::
          truncateToFit tok (messages.drop m.summarizedCount)
            ((m.tokenBudget : Int) - countTokens tok (summaryMessage s))
      else truncateToFit tok messages (m.tokenBudget : Int)
    | none => truncateToFit tok messages (m.tokenBudget : Int)

/-- `_format_for_summary`'s 2000-character clip of one message. -/
def summaryContentClip (content : String) : String :=
  if 2000 < content.length then content.take 2000 ++ "...[truncated]"
  else content

/-- The lines `_format_for_summary` builds (messages of other roles are
skipped; history dicts carry no `name` key, so the tool label is always the
default `"tool"`). -/
def formatForSummaryLines : List LlmMessage → List String
  | [] => []
  | msg :: rest =>
    if msg.role = "user" then
      ("User: " ++ summaryContentClip msg.content) :: formatForSummaryLines rest
    else if msg.role = "assistant" then
      ("Assistant: " ++ summaryContentClip msg.content) :: formatForSummaryLines rest
    else if msg.role = "tool" then
      ("Tool (tool): " ++ summaryContentClip msg.content) :: formatForSummaryLines rest
    else formatForSummaryLines rest

/-- `_format_for_summary`. -/
def formatForSummary (messages : List LlmMessage) : String :=
  String.intercalate "\n\n" (formatForSummaryLines messages)

/-- `SUMMARY_PROMPT.format(conversation=...)`. -/
def summaryPrompt (conversation : String) : String :=
  "Summarize this conversation history for a pentesting agent. Be terse.\n\nFocus on:\n- Targets discovered (IPs, domains, hosts)\n- Open ports and services found\n- Credentials or secrets discovered\n- Vulnerabilities identified\n- What was attempted and failed (to avoid repeating)\n- Current objective/progress\n\nOmit: verbose tool output, back-and-forth clarifications, redundant info.\n\nConversation to summarize:\n"
    ++ conversation ++ "\n\nSummary:"

/-- `ConversationMemory._summarize`: one LLM call; an exception degrades to
the placeholder naming the message count and the error. -/
def summarize (llm : String → Except String String)
    (messages : List LlmMessage) : String :=
  match llm (summaryPrompt (formatForSummary messages)) with
  | .ok s => s.trim
  | .error e =>
    "[" ++ toString messages.length ++ " earlier messages - summarization failed: "
      ++ e ++ "]"

/-- `ConversationMemory.get_messages_with_summary`.  Returns the messages,
the updated memory state, and whether the model was called.  The slice
`messages[-recent_to_keep:]` is the whole list when `recent_to_keep` is zero
(Python slicing); the truthiness of the cached summary again treats the empty
string as absent. -/
def ConversationMemory.getMessagesWithSummary (m : ConversationMemory)
    (tok : String → Nat) (messages : List LlmMessage)
    (llm : String → Except String String) :
    List LlmMessage × ConversationMemory × Bool :=
  if messages.isEmpty then ([], m, false)
  else if getTotalTokens tok messages ≤ m.thresholdTokens then (messages, m, false)
  else if messages.length ≤ m.recentToKeep then
    (truncateToFit tok messages (m.tokenBudget : Int), m, false)
  else
    let splitPoint := messages.length - m.recentToKeep
    let recent := if m.recentToKeep = 0 then messages else messages.drop splitPoint
    let cachedOk : Bool := match m.cachedSummary with
      | some s => s != ""
      | none => false
    if splitPoint ≤ m.summarizedCount ∧ cachedOk = true then
      (summaryMessage (m.cachedSummary.getD "") :: recent, m, false)
    else
      let summary := summarize llm (messages.take splitPoint)
      (summaryMessage summary :: recent,
       { m with cachedSummary := some summary, summarizedCount := splitPoint },
       true)

/-! ### Truncation lemmas -/

/-- Invariant of the truncation loop: the result is the reversed consumed
prefix of the remaining (reversed) input prepended to the accumulator, and
whenever anything was consumed the accumulated token total stays within the
budget. -/
theorem truncateLoop_spec (tok : String → Nat) (budget : Int) :
    ∀ (l : List LlmMessage) (total : Nat) (acc : List LlmMessage),
    ∃ p, p <+: l ∧ truncateLoop tok budget l total acc = p.reverse ++ acc
      ∧ (p ≠ [] → ((total : Int) + getTotalTokens tok p ≤ budget)) := by
  intro l
  induction l with
  | nil =>
    intro total acc
    exact ⟨[], List.nil_prefix, rfl, fun h => absurd rfl h⟩
  | cons msg rest ih =>
    intro total acc
    by_cases h : (total + countTokens tok msg : Int) > budget
    · refine ⟨[], List.nil_prefix, ?_, fun hne => absurd rfl hne⟩
      simp only [truncateLoop, if_pos h, List.reverse_nil, List.nil_append]
    · obtain ⟨p, hpre, heq, hbound⟩ := ih (total + countTokens tok msg) (msg :: acc)
      refine ⟨msg :: p, List.cons_prefix_cons.mpr ⟨rfl, hpre⟩, ?_, ?_⟩
      · simp only [truncateLoop, if_neg h]
        rw [heq, List.reverse_cons, List.append_assoc, List.singleton_append]
      · intro _
        rcases List.eq_nil_or_concat p with hp | _
        · subst hp
          simp only [getTotalTokens, List.map_cons, List.map_nil, List.sum_cons,
            List.sum_nil, Nat.add_zero]
          omega
        · have hb := hbound (by
            rename_i hconcat
            obtain ⟨l2, b, rfl⟩ := hconcat
            simp)
          simp only [getTotalTokens, List.map_cons, List.sum_cons] at *
          push_cast at *
          omega

/-- `_truncate_to_fit` returns a contiguous suffix of its input whose total
token count fits the budget (when the budget is non-negative). -/
theorem truncateToFit_spec (tok : String → Nat) (messages : List LlmMessage)
    (budget : Int) :
    truncateToFit tok messages budget <:+ messages
    ∧ (0 ≤ budget → (getTotalTokens tok (truncateToFit tok messages budget) : Int) ≤ budget) := by
  obtain ⟨p, hpre, heq, hbound⟩ := truncateLoop_spec tok budget messages.reverse 0 []
  unfold truncateToFit
  rw [heq, List.append_nil]
  constructor
  · have h1 : p.reverse.reverse <+: messages.reverse := by
      rwa [List.reverse_reverse]
    exact List.reverse_prefix.mp h1
  · intro hb
    rcases List.eq_nil_or_concat p with hp | hp
    · subst hp
      simpa [getTotalTokens] using hb
    · have hne : p ≠ [] := by
        obtain ⟨l2, b, rfl⟩ := hp
        simp
      have := hbound hne
      have hrev : getTotalTokens tok p.reverse = getTotalTokens tok p := by
        simp [getTotalTokens, List.map_reverse, List.sum_reverse]
      rw [hrev]
      omega

/-- `_truncate_to_fit` keeps at least the newest message whenever that
message alone fits the budget. -/
theorem truncateToFit_ne_nil (tok : String → Nat) (messages : List LlmMessage)
    (budget : Int) (last : LlmMessage)
    (hlast : messages.getLast? = some last)
    (hfits : (countTokens tok last : Int) ≤ budget) :
    truncateToFit tok messages budget ≠ [] := by
  have hhead : messages.reverse.head? = some last := by
    rw [List.head?_reverse]
    exact hlast
  obtain ⟨rest, hrev⟩ : ∃ rest, messages.reverse = last :: rest := by
    cases hr : messages.reverse with
    | nil => rw [hr] at hhead; cases hhead
    | cons a rest =>
      rw [hr] at hhead
      injection hhead with ha
      exact ⟨rest, by rw [ha]⟩
  unfold truncateToFit
  rw [hrev]
  have hcond : ¬ ((((0 : Nat) : Int)) + (countTokens tok last : Int) > budget) := by
    push_cast
    omega
  simp only [truncateLoop]
  rw [if_neg hcond]
  obtain ⟨p, _, heq, _⟩ := truncateLoop_spec tok budget rest (0 + countTokens tok last) [last]
  rw [heq]
  intro hcontra
  rcases List.append_eq_nil.mp hcontra with ⟨_, h2⟩
  cases h2

/-- C4: for a memory without a cached summary, whenever the history's total
token count exceeds the budget, `get_messages` returns a contiguous suffix of
the history whose total token count is at most the budget, and the suffix is
non-empty whenever the budget is positive and the newest message alone fits
it. -/
theorem getMessages_truncates_to_suffix (m : ConversationMemory)
    (tok : String → Nat) (messages : List LlmMessage)
    (hnone : m.cachedSummary = none)
    (hover : m.tokenBudget < getTotalTokens tok messages) :
    m.getMessages tok messages <:+ messages
    ∧ getTotalTokens tok (m.getMessages tok messages) ≤ m.tokenBudget
    ∧ (∀ last, messages.getLast? = some last →
        0 < m.tokenBudget → countTokens tok last ≤ m.tokenBudget →
        m.getMessages tok messages ≠ []) := by
  have hne : ¬ messages.isEmpty := by
    intro h
    rw [List.isEmpty_iff] at h
    subst h
    simp [getTotalTokens] at hover
  have hget : m.getMessages tok messages
      = truncateToFit tok messages (m.tokenBudget : Int) := by
    unfold ConversationMemory.getMessages
    rw [if_neg hne, hnone]
  obtain ⟨hsuffix, hbound⟩ := truncateToFit_spec tok messages (m.tokenBudget : Int)
  refine ⟨by rw [hget]; exact hsuffix, ?_, ?_⟩
  · rw [hget]
    exact_mod_cast hbound (by positivity)
  · intro last hlast _ hfits
    rw [hget]
    exact truncateToFit_ne_nil tok messages (m.tokenBudget : Int) last hlast
      (by exact_mod_cast hfits)

/-- C4 witness: two 12-token messages against a budget of 16: `get_messages`
keeps exactly the newest message. -/
theorem getMessages_truncates_to_suffix_witness :
    ({ tokenBudget := 16, thresholdTokens := 9 } :
        ConversationMemory).getMessages (fun s => s.data.length)
        [{ role := "user", content := "scan 10.0.0.5" },
         { role := "assistant", content := "running nmap." }]
      <:+ [{ role := "user", content := "scan 10.0.0.5" },
           { role := "assistant", content := "running nmap." }]
    ∧ getTotalTokens (fun s => s.data.length)
        (({ tokenBudget := 16, thresholdTokens := 9 } :
            ConversationMemory).getMessages (fun s => s.data.length)
          [{ role := "user", content := "scan 10.0.0.5" },
           { role := "assistant", content := "running nmap." }]) ≤ 16
    ∧ (∀ last,
        ([{ role := "user", content := "scan 10.0.0.5" },
          { role := "assistant", content := "running nmap." }] :
            List LlmMessage).getLast? = some last →
        0 < 16 → countTokens (fun s => s.data.length) last ≤ 16 →
        ({ tokenBudget := 16, thresholdTokens := 9 } :
            ConversationMemory).getMessages (fun s => s.data.length)
          [{ role := "user", content := "scan 10.0.0.5" },
           { role := "assistant", content := "running nmap." }] ≠ []) :=
  getMessages_truncates_to_suffix
    { tokenBudget := 16, thresholdTokens := 9 } (fun s => s.data.length)
    [{ role := "user", content := "scan 10.0.0.5" },
     { role := "assistant", content := "running nmap." }]
    rfl (by decide)

/-- C9: `get_messages_with_summary` returns the history unchanged, without
calling the model, when the total token count is below the summarize
threshold; and when the total exceeds the threshold but the history is no
longer than the recent-to-keep count, it degrades to front-truncation within
the budget, again without calling the model. -/
theorem getMessagesWithSummary_small_histories (m : ConversationMemory)
    (tok : String → Nat) (messages : List LlmMessage)
    (llm : String → Except String String) :
    (getTotalTokens tok messages < m.thresholdTokens →
      m.getMessagesWithSummary tok messages llm = (messages, m, false))
    ∧ (m.thresholdTokens < getTotalTokens tok messages →
       messages.length ≤ m.recentToKeep →
       m.getMessagesWithSummary tok messages llm
         = (truncateToFit tok messages (m.tokenBudget : Int), m, false)) := by
  constructor
  · intro hlt
    unfold ConversationMemory.getMessagesWithSummary
    by_cases hemp : messages.isEmpty
    · rw [if_pos hemp]
      rw [List.isEmpty_iff] at hemp
      rw [hemp]
    · rw [if_neg hemp, if_pos (Nat.le_of_lt hlt)]
  · intro hgt hlen
    have hne : ¬ messages.isEmpty := by
      intro h
      rw [List.isEmpty_iff] at h
      subst h
      simp [getTotalTokens] at hgt
    unfold ConversationMemory.getMessagesWithSummary
    rw [if_neg hne, if_neg (by omega), if_pos hlen]

/-- C9 witness: with threshold 60 and budget 100, a 25-token history is
returned unchanged with no model call, and a 75-token single-message history
falls back to truncation with no model call. -/
theorem getMessagesWithSummary_small_histories_witness :
    ({ tokenBudget := 100, thresholdTokens := 60 } :
        ConversationMemory).getMessagesWithSummary (fun s => s.data.length)
        [{ role := "user", content := "enumerate open services." }]
        (fun _ => .ok "summary")
      = ([{ role := "user", content := "enumerate open services." }],
         { tokenBudget := 100, thresholdTokens := 60 }, false)
    ∧ ({ tokenBudget := 100, thresholdTokens := 60 } :
        ConversationMemory).getMessagesWithSummary (fun s => s.data.length)
        [{ role := "user",
           content := "enumerate every open service on the ten point zero subnet today." }]
        (fun _ => .ok "summary")
      = (truncateToFit (fun s => s.data.length)
          [{ role := "user",
             content := "enumerate every open service on the ten point zero subnet today." }]
          (100 : Int),
         { tokenBudget := 100, thresholdTokens := 60 }, false) :=
  ⟨(getMessagesWithSummary_small_histories
      { tokenBudget := 100, thresholdTokens := 60 } (fun s => s.data.length)
      [{ role := "user", content := "enumerate open services." }]
      (fun _ => .ok "summary")).1 (by decide),
   (getMessagesWithSummary_small_histories
      { tokenBudget := 100, thresholdTokens := 60 } (fun s => s.data.length)
      [{ role := "user",
         content := "enumerate every open service on the ten point zero subnet today." }]
      (fun _ => .ok "summary")).2 (by decide) (by decide)⟩

/-! ## Shadow graph (`ghostcrew/knowledge/graph.py`)

The compiled `re` patterns (`_ip_pattern`, `_port_pattern`, `_user_pattern`,
`_source_pattern` and the inline CVE pattern) belong to the external regex
engine; they are abstracted as the `RegexOracle` function bundle.  The
NetworkX `DiGraph` is modelled as insertion-ordered association lists keyed
by node id and by (source, target) pair; `add_edge` on an existing key
replaces that edge's attributes (NetworkX merges them) and never duplicates
the edge. -/

/-- Attributes of one graph node. -/
structure NodeData where
  type : String
  label : String
deriving DecidableEq, Repr

/-- Attributes of one graph edge (`protocol` is the only keyword attribute
the code ever passes). -/
structure EdgeData where
  type : String
  protocol : Option String := none
deriving DecidableEq, Repr

/-- The NetworkX graph underlying `ShadowGraph.graph`. -/
structure GraphData where
  nodes : List (String × NodeData) := []
  edges : List (String × String × EdgeData) := []
deriving DecidableEq, Repr

/-- `self.graph.has_node`. -/
def hasNode (g : GraphData) (id : String) : Bool :=
  g.nodes.any (fun n => n.1 == id)

/-- `self.graph.has_edge`. -/
def hasEdge (g : GraphData) (s t : String) : Bool :=
  g.edges.any (fun e => e.1 == s && e.2.1 == t)

/-- `ShadowGraph._add_node`: add a node only if absent. -/
def addNode (g : GraphData) (id ntype label : String) : GraphData :=
  if hasNode g id then g
  else { g with nodes := g.nodes ++ [(id, { type := ntype, label := label })] }

/-- `ShadowGraph._add_edge`: silently dropped unless both endpoints already
exist; on an existing (source, target) key the attributes are replaced. -/
def addEdge (g : GraphData) (s t : String) (d : EdgeData) : GraphData :=
  if hasNode g s && hasNode g t then
    if hasEdge g s t then
      { g with edges :=
          g.edges.map (fun e => if e.1 == s && e.2.1 == t then (s, t, d) else e) }
    else { g with edges := g.edges ++ [(s, t, d)] }
  else g

/-- The compiled regex patterns of `ShadowGraph.__init__`, abstracted:
`findIps` is `_ip_pattern.findall`, `findPorts` is `_port_pattern.findall`
(pairs of port and protocol), `findUser` and `findSource` are the first
capture group of `_user_pattern.search` / `_source_pattern.search`, and
`findCve` is the inline `CVE-\d{4}-\d{4,7}` search. -/
structure RegexOracle where
  findIps : String → List String
  findPorts : String → List (String × String)
  findUser : String → Option String
  findSource : String → Option String
  findCve : String → Option String

/-- `metadata.get(key)` combined with the Python truthiness test the code
applies to it (a missing key and an empty string both count as absent). -/
def metaGet (metadata : List (String × String)) (key : String) : Option String :=
  match metadata.lookup key with
  | some v => if v = "" then none else some v
  | none => none

/-- Substring containment on character lists (the Python `in` operator on
strings). -/
def containsSeq (needle : List Char) : List Char → Bool
  | [] => needle.isEmpty
  | c :: rest => needle.isPrefixOf (c :: rest) || containsSeq needle rest

/-- The `"ssh" in content.lower()` test of `_process_credential`, expressed
on the character list. -/
def containsSsh (content : String) : Bool :=
  containsSeq "ssh".data (content.data.map Char.toLower)

/-- The port normalisation of `_process_finding`: a metadata port with a
slash is split into number and protocol, otherwise the protocol defaults to
`tcp`.  (Python unpacking of `p.split("/")` assumes a single slash; further
slashes would raise, which no checked property exercises.) -/
def splitPort (p : String) : String × String :=
  if p.data.contains '/' then
    (⟨p.data.takeWhile (fun c => c ≠ '/')⟩,
     ⟨(p.data.dropWhile (fun c => c ≠ '/')).tail⟩)
  else (p, "tcp")

/-- `ShadowGraph._process_credential`. -/
def processCredential (oracle : RegexOracle) (g : GraphData) (key content : String)
    (relatedHosts : List String) (metadata : List (String × String)) : GraphData :=
  let username := match metaGet metadata "username" with
    | some u => some u
    | none => oracle.findUser content
  let credId := "cred:" ++ key
  let label := match username with
    | some u => "Creds (" ++ u ++ ")"
    | none => "Credentials"
  let g1 := addNode g credId "credential" label
  let sourceHost : Option String := match metaGet metadata "source" with
    | some ip => some ("host:" ++ ip)
    | none =>
      match oracle.findSource content with
      | some ip => some ("host:" ++ ip)
      | none => none
  let g2 := match sourceHost with
    | some sh => if hasNode g1 sh then addEdge g1 sh credId { type := "CONTAINS" } else g1
    | none => g1
  relatedHosts.foldl
    (fun acc hostId =>
      if sourceHost = some hostId then acc
      else addEdge acc credId hostId
        { type := "AUTH_ACCESS",
          protocol := some (if containsSsh content then "ssh" else "unknown") })
    g2

/-- The target-precedence filter shared by `_process_finding` and
`_process_vulnerability`: an explicit metadata target narrows the related
hosts to it alone, provided it is among them. -/
def targetHostsOf (relatedHosts : List String)
    (metadata : List (String × String)) : List String :=
  match metaGet metadata "target" with
  | some ip =>
    if relatedHosts.contains ("host:" ++ ip) then ["host:" ++ ip]
    else relatedHosts
  | none => relatedHosts

/-- `ShadowGraph._process_finding`. -/
def processFinding (oracle : RegexOracle) (g : GraphData) (content : String)
    (relatedHosts : List String) (metadata : List (String × String)) : GraphData :=
  let targetHosts := targetHostsOf relatedHosts metadata
  let ports0 : List (String × String) := match metaGet metadata "port" with
    | some p => [splitPort p]
    | none => []
  let ports := (oracle.findPorts content).foldl
    (fun acc pp => if acc.contains pp then acc else acc ++ [pp]) ports0
  ports.foldl
    (fun gacc pp =>
      targetHosts.foldl
        (fun gacc2 hostId =>
          let serviceId := "service:" ++ hostId ++ ":" ++ pp.1
          let label := pp.1 ++ "/" ++ pp.2 ++
            (match metaGet metadata "url" with
             | some u => " (" ++ u ++ ")"
             | none => "")
          addEdge (addNode gacc2 serviceId "service" label) hostId serviceId
            { type := "HAS_SERVICE", protocol := some pp.2 })
        gacc)
    g

/-- `ShadowGraph._process_vulnerability`. -/
def processVulnerability (oracle : RegexOracle) (g : GraphData) (key content : String)
    (relatedHosts : List String) (metadata : List (String × String)) : GraphData :=
  let targetHosts := targetHostsOf relatedHosts metadata
  let vulnId := "vuln:" ++ key
  let label := match metaGet metadata "cve" with
    | some c => c
    | none =>
      match oracle.findCve content with
      | some c => c
      | none => "Vulnerability"
  let g1 := addNode g vulnId "vulnerability" label
  targetHosts.foldl
    (fun acc hostId => addEdge acc hostId vulnId { type := "AFFECTED_BY" }) g1

/-- The host-extraction prelude of `_process_note`: host nodes from the
metadata target and source fields, falling back to address-pattern matching
over the content when both are absent. -/
def extractHosts (oracle : RegexOracle) (g : GraphData) (content : String)
    (metadata : List (String × String)) : GraphData × List String :=
  let step1 : GraphData × List String := match metaGet metadata "target" with
    | some ip => (addNode g ("host:" ++ ip) "host" ip, ["host:" ++ ip])
    | none => (g, [])
  let step2 : GraphData × List String := match metaGet metadata "source" with
    | some ip => (addNode step1.1 ("host:" ++ ip) "host" ip, step1.2 ++ ["host:" ++ ip])
    | none => step1
  if step2.2.isEmpty then
    (oracle.findIps content).foldl
      (fun acc ip => (addNode acc.1 ("host:" ++ ip) "host" ip, acc.2 ++ ["host:" ++ ip]))
      (step2.1, [])
  else step2

/-- `ShadowGraph._process_note`: collect host nodes, then dispatch on the
category. -/
def processNote (oracle : RegexOracle) (g : GraphData) (key content category : String)
    (metadata : List (String × String)) : GraphData :=
  let hosts := extractHosts oracle g content metadata
  if category = "credential" then
    processCredential oracle hosts.1 key content hosts.2 metadata
  else if category = "finding" then
    processFinding oracle hosts.1 content hosts.2 metadata
  else if category = "vulnerability" then
    processVulnerability oracle hosts.1 key content hosts.2 metadata
  else hosts.1

/-- One value of the notes map: either the legacy bare string or the dict
shape, with the defaults `_process_note` receives already applied
(`content` default `""`, `category` default `"info"`, `metadata` default
empty). -/
inductive NoteData
  | legacy (content : String)
  | full (content : String) (category : String) (metadata : List (String × String))
deriving DecidableEq, Repr

/-- The whole `ShadowGraph` object: the derived graph and the processed-key
set. -/
structure ShadowGraph where
  graph : GraphData := {}
  processedNotes : List String := []
deriving DecidableEq, Repr

/-- The fresh graph `ShadowGraph.__init__` builds. -/
def emptyShadowGraph : ShadowGraph := {}

/-- One iteration of the `update_from_notes` loop: a key already in the
processed set is skipped entirely (even if the content changed); otherwise
the note is processed (with the legacy-string defaults when applicable) and
its key recorded. -/
def updateStep (oracle : RegexOracle) (acc : ShadowGraph)
    (kv : String × NoteData) : ShadowGraph :=
  if acc.processedNotes.contains kv.1 then acc
  else
    { graph :=
        (match kv.2 with
         | .legacy c => processNote oracle acc.graph kv.1 c "info" []
         | .full c cat md => processNote oracle acc.graph kv.1 c cat md),
      processedNotes := acc.processedNotes ++ [kv.1] }

/-- `ShadowGraph.update_from_notes` over an insertion-ordered notes map. -/
def updateFromNotes (oracle : RegexOracle) (sg : ShadowGraph)
    (notes : List (String × NoteData)) : ShadowGraph :=
  notes.foldl (updateStep oracle) sg

/-! ### Idempotence of `update_from_notes` on keys (C7) -/

/-- `updateStep` never removes a key from the processed set. -/
theorem updateStep_processed_mono (oracle : RegexOracle) (acc : ShadowGraph)
    (kv : String × NoteData) (k : String) (h : k ∈ acc.processedNotes) :
    k ∈ (updateStep oracle acc kv).processedNotes := by
  unfold updateStep
  split
  · exact h
  · exact List.mem_append_left _ h

/-- `updateStep` records the key it was given. -/
theorem updateStep_processed_self (oracle : RegexOracle) (acc : ShadowGraph)
    (kv : String × NoteData) :
    kv.1 ∈ (updateStep oracle acc kv).processedNotes := by
  unfold updateStep
  split
  · exact List.elem_iff.mp (by assumption)
  · exact List.mem_append_right _ (List.mem_singleton.mpr rfl)

/-- `update_from_notes` never removes a key from the processed set. -/
theorem updateFromNotes_processed_mono (oracle : RegexOracle)
    (notes : List (String × NoteData)) :
    ∀ (sg : ShadowGraph) (k : String), k ∈ sg.processedNotes →
    k ∈ (updateFromNotes oracle sg notes).processedNotes := by
  induction notes with
  | nil => intro sg k h; exact h
  | cons kv rest ih =>
    intro sg k h
    exact ih (updateStep oracle sg kv) k (updateStep_processed_mono oracle sg kv k h)

/-- After `update_from_notes`, every key of the notes map is in the processed
set. -/
theorem updateFromNotes_processes_keys (oracle : RegexOracle)
    (notes : List (String × NoteData)) :
    ∀ (sg : ShadowGraph) (kv : String × NoteData), kv ∈ notes →
    kv.1 ∈ (updateFromNotes oracle sg notes).processedNotes := by
  induction notes with
  | nil => intro sg kv h; cases h
  | cons kv0 rest ih =>
    intro sg kv h
    rcases List.mem_cons.mp h with rfl | hrest
    · exact updateFromNotes_processed_mono oracle rest (updateStep oracle sg kv) kv.1
        (updateStep_processed_self oracle sg kv)
    · exact ih (updateStep oracle sg kv0) kv hrest

/-- `update_from_notes` is the identity on a state whose processed set
already covers every key of the notes map. -/
theorem updateFromNotes_skips_processed (oracle : RegexOracle) :
    ∀ (notes : List (String × NoteData)) (sg : ShadowGraph),
    (∀ kv ∈ notes, kv.1 ∈ sg.processedNotes) →
    updateFromNotes oracle sg notes = sg := by
  intro notes
  induction notes with
  | nil => intro sg _; rfl
  | cons kv0 rest ih =>
    intro sg hall
    have hstep : updateStep oracle sg kv0 = sg := by
      unfold updateStep
      rw [if_pos (List.elem_iff.mpr (hall kv0 (List.mem_cons_self _ _)))]
    show updateFromNotes oracle (updateStep oracle sg kv0) rest = sg
    rw [hstep]
    exact ih sg (fun kv hkv => hall kv (List.mem_cons_of_mem _ hkv))

/-- C7: `update_from_notes` is idempotent on note keys.  A second call whose
notes map has the same keys (contents may have changed arbitrarily) leaves
the whole shadow-graph state — in particular the node and edge counts —
unchanged. -/
theorem updateFromNotes_idempotent_on_keys (oracle : RegexOracle)
    (sg : ShadowGraph) (ns ns2 : List (String × NoteData))
    (hkeys : ∀ kv ∈ ns2, kv.1 ∈ ns.map Prod.fst) :
    updateFromNotes oracle (updateFromNotes oracle sg ns) ns2
      = updateFromNotes oracle sg ns
    ∧ (updateFromNotes oracle (updateFromNotes oracle sg ns) ns2).graph.nodes.length
        = (updateFromNotes oracle sg ns).graph.nodes.length
    ∧ (updateFromNotes oracle (updateFromNotes oracle sg ns) ns2).graph.edges.length
        = (updateFromNotes oracle sg ns).graph.edges.length := by
  have hmain : updateFromNotes oracle (updateFromNotes oracle sg ns) ns2
      = updateFromNotes oracle sg ns := by
    apply updateFromNotes_skips_processed
    intro kv hkv
    obtain ⟨kv2, hkv2, heq⟩ := List.mem_map.mp (hkeys kv hkv)
    have := updateFromNotes_processes_keys oracle ns sg kv2 hkv2
    rwa [heq] at this
  exact ⟨hmain, by rw [hmain], by rw [hmain]⟩

/-- A concrete oracle for closed instances: regex patterns that match
nothing. -/
def nullOracle : RegexOracle :=
  { findIps := fun _ => [], findPorts := fun _ => [],
    findUser := fun _ => none, findSource := fun _ => none,
    findCve := fun _ => none }

/-- C7 witness: one credential note processed twice, the second time with
changed content and metadata under the same key — the state after the second
call is the state after the first, node and edge counts included. -/
theorem updateFromNotes_idempotent_on_keys_witness :
    updateFromNotes nullOracle
        (updateFromNotes nullOracle emptyShadowGraph
          [("note-1", NoteData.full "user: admin" "credential"
              [("target", "10.0.0.5")])])
        [("note-1", NoteData.full "user: root CHANGED" "credential"
            [("target", "10.0.0.77")])]
      = updateFromNotes nullOracle emptyShadowGraph
          [("note-1", NoteData.full "user: admin" "credential"
              [("target", "10.0.0.5")])]
    ∧ (updateFromNotes nullOracle
        (updateFromNotes nullOracle emptyShadowGraph
          [("note-1", NoteData.full "user: admin" "credential"
              [("target", "10.0.0.5")])])
        [("note-1", NoteData.full "user: root CHANGED" "credential"
            [("target", "10.0.0.77")])]).graph.nodes.length
      = (updateFromNotes nullOracle emptyShadowGraph
          [("note-1", NoteData.full "user: admin" "credential"
              [("target", "10.0.0.5")])]).graph.nodes.length
    ∧ (updateFromNotes nullOracle
        (updateFromNotes nullOracle emptyShadowGraph
          [("note-1", NoteData.full "user: admin" "credential"
              [("target", "10.0.0.5")])])
        [("note-1", NoteData.full "user: root CHANGED" "credential"
            [("target", "10.0.0.77")])]).graph.edges.length
      = (updateFromNotes nullOracle emptyShadowGraph
          [("note-1", NoteData.full "user: admin" "credential"
              [("target", "10.0.0.5")])]).graph.edges.length :=
  updateFromNotes_idempotent_on_keys nullOracle emptyShadowGraph
    [("note-1", NoteData.full "user: admin" "credential" [("target", "10.0.0.5")])]
    [("note-1", NoteData.full "user: root CHANGED" "credential"
        [("target", "10.0.0.77")])]
    (by decide)

/-! ### Credential-note scenario (C8) -/

/-- The graph resulting from processing the scenario's credential note:
metadata `{username: admin, target: 10.0.0.9, source: 10.0.0.1}`.  The
metadata covers every extraction, so the result does not depend on the regex
oracle. -/
def credScenarioGraph (oracle : RegexOracle) : GraphData :=
  (updateFromNotes oracle emptyShadowGraph
    [("cred1", NoteData.full "Found admin credentials" "credential"
        [("username", "admin"), ("target", "10.0.0.9"), ("source", "10.0.0.1")])]).graph

/-- C8: the scenario note produces the credential node and both host nodes,
a `CONTAINS` edge from the source host `10.0.0.1` to the credential, an
`AUTH_ACCESS` edge from the credential to the target host `10.0.0.9`, and no
edge of any kind — in particular no `AUTH_ACCESS` edge — from the credential
back to the source host. -/
theorem credential_note_scenario (oracle : RegexOracle) :
    (credScenarioGraph oracle).nodes
      = [("host:10.0.0.9", { type := "host", label := "10.0.0.9" }),
         ("host:10.0.0.1", { type := "host", label := "10.0.0.1" }),
         ("cred:cred1", { type := "credential", label := "Creds (admin)" })]
    ∧ (credScenarioGraph oracle).edges
      = [("host:10.0.0.1", "cred:cred1", { type := "CONTAINS" }),
         ("cred:cred1", "host:10.0.0.9",
          { type := "AUTH_ACCESS", protocol := some "unknown" })]
    ∧ ("host:10.0.0.1", "cred:cred1", ({ type := "CONTAINS" } : EdgeData))
        ∈ (credScenarioGraph oracle).edges
    ∧ ("cred:cred1", "host:10.0.0.9",
        ({ type := "AUTH_ACCESS", protocol := some "unknown" } : EdgeData))
        ∈ (credScenarioGraph oracle).edges
    ∧ (∀ d : EdgeData,
        ("cred:cred1", "host:10.0.0.1", d) ∉ (credScenarioGraph oracle).edges) := by
  have he : (credScenarioGraph oracle).edges
      = [("host:10.0.0.1", "cred:cred1", { type := "CONTAINS" }),
         ("cred:cred1", "host:10.0.0.9",
          { type := "AUTH_ACCESS", protocol := some "unknown" })] := rfl
  refine ⟨rfl, he, ?_, ?_, ?_⟩
  · rw [he]
    exact List.mem_cons_self _ _
  · rw [he]
    exact List.mem_cons_of_mem _ (List.mem_cons_self _ _)
  · intro d hd
    rw [he] at hd
    simp only [List.mem_cons, List.not_mem_nil, or_false, Prod.mk.injEq] at hd
    rcases hd with ⟨h1, _⟩ | ⟨_, h2, _⟩
    · exact absurd h1 (by decide)
    · exact absurd h2 (by decide)

/-! ### Edge endpoints always exist (C10) -/

/-- Every edge endpoint referenced by the graph is a node of the graph. -/
def edgesClosed (g : GraphData) : Prop :=
  ∀ e ∈ g.edges, hasNode g e.1 = true ∧ hasNode g e.2.1 = true

/-- Adding a node preserves existing node membership. -/
theorem hasNode_addNode (g : GraphData) (a b c id : String)
    (h : hasNode g id = true) : hasNode (addNode g a b c) id = true := by
  unfold addNode
  split
  · exact h
  · unfold hasNode at h ⊢
    rw [List.any_append]
    simp [h]

/-- Adding a node leaves the edge list untouched. -/
theorem addNode_edges (g : GraphData) (a b c : String) :
    (addNode g a b c).edges = g.edges := by
  unfold addNode
  split <;> rfl

/-- `_add_node` preserves the edge-endpoint invariant. -/
theorem addNode_closed (g : GraphData) (a b c : String) (h : edgesClosed g) :
    edgesClosed (addNode g a b c) := by
  intro e he
  rw [addNode_edges] at he
  obtain ⟨h1, h2⟩ := h e he
  exact ⟨hasNode_addNode g a b c _ h1, hasNode_addNode g a b c _ h2⟩

/-- `_add_edge` preserves the edge-endpoint invariant: a new edge is added
only when both endpoints exist, and the node set never changes. -/
theorem addEdge_closed (g : GraphData) (s t : String) (d : EdgeData)
    (h : edgesClosed g) : edgesClosed (addEdge g s t d) := by
  unfold addEdge
  by_cases hst : (hasNode g s && hasNode g t) = true
  · obtain ⟨hs, ht⟩ := Bool.and_eq_true_iff.mp hst
    rw [if_pos hst]
    by_cases hed : hasEdge g s t = true
    · rw [if_pos hed]
      intro e he
      obtain ⟨e2, he2, heq⟩ := List.mem_map.mp he
      subst heq
      by_cases hkey : (e2.1 == s && e2.2.1 == t) = true
      · rw [if_pos hkey]
        exact ⟨hs, ht⟩
      · rw [if_neg hkey]
        exact h e2 he2
    · rw [if_neg hed]
      intro e he
      rcases List.mem_append.mp he with h1 | h2
      · exact h e h1
      · rcases List.mem_singleton.mp h2 with rfl
        exact ⟨hs, ht⟩
  · rw [if_neg hst]
    exact h

/-- A fold whose step preserves a predicate preserves it over the whole
list. -/
theorem foldl_preserves {σ α : Type} {P : σ → Prop} (f : σ → α → σ)
    (hf : ∀ s a, P s → P (f s a)) :
    ∀ (l : List α) (s : σ), P s → P (l.foldl f s) := by
  intro l
  induction l with
  | nil => intro s hs; exact hs
  | cons a rest ih => intro s hs; exact ih (f s a) (hf s a hs)

/-- `_process_credential` preserves the edge-endpoint invariant. -/
theorem processCredential_closed (oracle : RegexOracle) (g : GraphData)
    (key content : String) (hosts : List String)
    (md : List (String × String)) (h : edgesClosed g) :
    edgesClosed (processCredential oracle g key content hosts md) := by
  unfold processCredential
  apply foldl_preserves
  · intro g2 hostId hg2
    dsimp only
    split
    · exact hg2
    · exact addEdge_closed _ _ _ _ hg2
  · split
    · split
      · exact addEdge_closed _ _ _ _ (addNode_closed _ _ _ _ h)
      · exact addNode_closed _ _ _ _ h
    · exact addNode_closed _ _ _ _ h

/-- `_process_finding` preserves the edge-endpoint invariant. -/
theorem processFinding_closed (oracle : RegexOracle) (g : GraphData)
    (content : String) (hosts : List String)
    (md : List (String × String)) (h : edgesClosed g) :
    edgesClosed (processFinding oracle g content hosts md) := by
  unfold processFinding
  apply foldl_preserves
  · intro g2 pp hg2
    dsimp only
    apply foldl_preserves
    · intro g3 hostId hg3
      dsimp only
      exact addEdge_closed _ _ _ _ (addNode_closed _ _ _ _ hg3)
    · exact hg2
  · exact h

/-- `_process_vulnerability` preserves the edge-endpoint invariant. -/
theorem processVulnerability_closed (oracle : RegexOracle) (g : GraphData)
    (key content : String) (hosts : List String)
    (md : List (String × String)) (h : edgesClosed g) :
    edgesClosed (processVulnerability oracle g key content hosts md) := by
  unfold processVulnerability
  apply foldl_preserves
  · intro g2 hostId hg2
    dsimp only
    exact addEdge_closed _ _ _ _ hg2
  · exact addNode_closed _ _ _ _ h

/-- The host-extraction prelude preserves the edge-endpoint invariant. -/
theorem extractHosts_closed (oracle : RegexOracle) (g : GraphData)
    (content : String) (md : List (String × String)) (h : edgesClosed g) :
    edgesClosed (extractHosts oracle g content md).1 := by
  have h1 : ∀ (s : GraphData × List String), edgesClosed s.1 →
      edgesClosed ((match metaGet md "source" with
        | some ip => (addNode s.1 ("host:" ++ ip) "host" ip, s.2 ++ ["host:" ++ ip])
        | none => s) : GraphData × List String).1 := by
    intro s hs
    split
    · exact addNode_closed _ _ _ _ hs
    · exact hs
  have h2 : edgesClosed ((match metaGet md "target" with
      | some ip => (addNode g ("host:" ++ ip) "host" ip, ["host:" ++ ip])
      | none => (g, [])) : GraphData × List String).1 := by
    split
    · exact addNode_closed _ _ _ _ h
    · exact h
  have hfold : ∀ (s : GraphData × List String), edgesClosed s.1 →
      edgesClosed ((if s.2.isEmpty then
          (oracle.findIps content).foldl
            (fun acc ip => (addNode acc.1 ("host:" ++ ip) "host" ip, acc.2 ++ ["host:" ++ ip]))
            (s.1, [])
        else s) : GraphData × List String).1 := by
    intro s hs
    split
    · apply foldl_preserves (P := fun s2 : GraphData × List String => edgesClosed s2.1)
      · intro s2 ip hs2
        exact addNode_closed _ _ _ _ hs2
      · exact hs
    · exact hs
  exact hfold _ (h1 _ h2)

/-- `_process_note` preserves the edge-endpoint invariant. -/
theorem processNote_closed (oracle : RegexOracle) (g : GraphData)
    (key content category : String) (md : List (String × String))
    (h : edgesClosed g) :
    edgesClosed (processNote oracle g key content category md) := by
  unfold processNote
  have hh := extractHosts_closed oracle g content md h
  split
  · exact processCredential_closed _ _ _ _ _ _ hh
  · split
    · exact processFinding_closed _ _ _ _ _ hh
    · split
      · exact processVulnerability_closed _ _ _ _ _ _ hh
      · exact hh

/-- One `update_from_notes` iteration preserves the edge-endpoint
invariant. -/
theorem updateStep_closed (oracle : RegexOracle) (acc : ShadowGraph)
    (kv : String × NoteData) (h : edgesClosed acc.graph) :
    edgesClosed (updateStep oracle acc kv).graph := by
  unfold updateStep
  split
  · exact h
  · split
    · exact processNote_closed _ _ _ _ _ _ h
    · exact processNote_closed _ _ _ _ _ _ h

/-- C10: after any sequence of `update_from_notes` calls starting from the
fresh shadow graph, every edge's source and target refer to nodes present in
the graph — `_add_edge` silently drops an edge whose endpoints are not both
present, and nodes are never removed. -/
theorem shadowGraph_edge_endpoints_exist (oracle : RegexOracle)
    (runs : List (List (String × NoteData))) :
    edgesClosed (runs.foldl (updateFromNotes oracle) emptyShadowGraph).graph := by
  apply foldl_preserves (P := fun sg : ShadowGraph => edgesClosed sg.graph)
  · intro sg notes hsg
    unfold updateFromNotes
    apply foldl_preserves (P := fun sg : ShadowGraph => edgesClosed sg.graph)
    · intro acc kv hacc
      exact updateStep_closed oracle acc kv hacc
    · exact hsg
  · intro e he
    cases he

end GhostCrew
